import Mathlib

/-!
Verification of the GrovePiPico firmware command server (`src/server/main.py`).

The development shallowly embeds the protocol interpreter and the stateful
device-adapter layer.  Python strings are modelled as `List Char`, the
process-wide mutable caches (digital pin states, PWM channels, the LCD cache,
the DHT last-good-value cache) as fields of an explicit `World` record, and
the fallible hardware collaborators (ADC sample, echo-pulse measurement, DHT
measurement, LCD clear) as per-call oracle inputs.  Machine-level drivers
(`machine.Pin`, `machine.PWM`, the LCD driver, the `dht` module) are external
to the repository; they are modelled at the interface boundary described in
the specification (section 6).
-/

namespace GrovePico

/-! ## Python string primitives -/

/-- Whitespace recognised by Python's `str.strip` (the ASCII subset, which is
all that the line-based protocol can carry). -/
def pyIsSpace (c : Char) : Bool :=
  c = ' ' || c = '\t' || c = '\n' || c = '\r' || c = '\x0b' || c = '\x0c'

/-- Python `str.lstrip()`. -/
def lstrip (s : List Char) : List Char := s.dropWhile pyIsSpace

/-- Python `str.rstrip()`. -/
def rstrip (s : List Char) : List Char := (s.reverse.dropWhile pyIsSpace).reverse

/-- Python `str.strip()`. -/
def strip (s : List Char) : List Char := rstrip (lstrip s)

/-- Python `str.lower()` (ASCII). -/
def pyLower (s : List Char) : List Char := s.map Char.toLower

/-- Index of the first occurrence of a character, scanning left to right
(the search underlying Python `str.find`). -/
def findChar (c : Char) : List Char → Option Nat
  | [] => none
  | x :: xs => if x = c then some 0 else (findChar c xs).map (· + 1)

/-- Python `str.find(c)`: first index, or `-1` when absent. -/
def pyFind (c : Char) (s : List Char) : Int :=
  match findChar c s with
  | some i => (i : Int)
  | none => -1

/-- Python `str.rfind(c)`: last index, or `-1` when absent (realised by the
first occurrence in the reversed string). -/
def pyRFind (c : Char) (s : List Char) : Int :=
  match findChar c s.reverse with
  | some j => (s.length : Int) - 1 - (j : Int)
  | none => -1

/-- Python `str.split(sep)` for a one-character separator: always returns at
least one (possibly empty) piece. -/
def pySplit (sep : Char) : List Char → List (List Char)
  | [] => [[]]
  | c :: rest =>
    if c = sep then [] :: pySplit sep rest
    else
      match pySplit sep rest with
      | [] => [[c]]
      | p :: ps => (c :: p) :: ps

/-- Python `str.split(sep, 1)`: split at the first occurrence only. -/
def pySplitOnce (sep : Char) : List Char → List (List Char)
  | [] => [[]]
  | c :: rest =>
    if c = sep then [[], rest]
    else
      match pySplitOnce sep rest with
      | [] => [[c]]
      | [p] => [c :: p]
      | p :: ps => (c :: p) :: ps

/-- Value of a non-empty all-digit string, `none` otherwise. -/
def digitsVal (ds : List Char) : Option Nat :=
  if ds = [] then none
  else if ds.all Char.isDigit then
    some (ds.foldl (fun acc c => acc * 10 + (c.toNat - 48)) 0)
  else none

/-- `_parse_int` from the source: Python `int(token)` on a decimal string
(optional surrounding whitespace and sign), `none` on failure. -/
def pyParseInt (s : List Char) : Option Int :=
  match strip s with
  | '+' :: ds => (digitsVal ds).map (fun n => (n : Int))
  | '-' :: ds => (digitsVal ds).map (fun n => -(n : Int))
  | ds => (digitsVal ds).map (fun n => (n : Int))

/-- Python `int()` applied to a (rational-modelled) float: truncation toward
zero. -/
def pyIntTrunc (q : Rat) : Int := Int.tdiv q.num (q.den : Int)

/-! ## Command parser (`_parse_call`, `_split_args`) -/

/-- `_parse_call`: parse one `"func(arg1, arg2, ...)"` line into
`(name, args_str)`, or `none` when the line is not a call. -/
def parseCall (line : List Char) : Option (List Char × List Char) :=
  if line = [] then none
  else
    let s := strip line
    if s = [] then none
    else
      let l := pyFind '(' s
      let r := pyRFind ')' s
      if l ≤ 0 ∨ r ≤ l then none
      else some (strip (s.take l.toNat), strip ((s.take r.toNat).drop (l.toNat + 1)))

/-- `_split_args`: split a comma-separated argument string, trim each piece,
drop empty pieces.  `maxsplit = 1` splits at the first comma only. -/
def splitArgsM (argsStr : List Char) (maxsplit : Int) : List (List Char) :=
  if argsStr = [] then []
  else
    let parts := if maxsplit = 1 then pySplitOnce ',' argsStr else pySplit ',' argsStr
    (parts.map strip).filter (fun p => p ≠ [])

/-! ## Data model: errors, pins, display, caches, world -/

/-- Adapter-level failures, named after the exception messages raised by the
source (`KeyError`/`ValueError`/`RuntimeError` payloads). -/
inductive Err where
  | unknownDigitalPin
  | unknownAnalogPin
  | unknownMode
  | unknownLevel
  | pulseTimeout
  | pulseError
  | unknownBus
  | unknownModuleType
  | measureFailed
  | lcdDriverUnavailable
  | unknownLcdChannel
deriving DecidableEq

/-- Direction of a GPIO pin. -/
inductive PinDir where
  | input
  | output
deriving DecidableEq

/-- State of one digital pin.  The pin driver (`machine.Pin`, external to the
repository) is modelled per the spec's collaborator interface (section 6):
`init` sets the direction (and optionally drives a level), and reading an
input pin returns the last driven level (no external driver on the line is
modelled). -/
structure PinState where
  dir : PinDir
  level : Bool
deriving DecidableEq

/-- The 16x2 character display.  The LCD driver primitives
(`clear/home/print/setCursor/set_rgb`) are modelled from the spec's
collaborator interface (section 6): a cursor plus two 16-cell rows, where
printing overwrites cells from the cursor onward. -/
structure Lcd where
  row0 : List Char
  row1 : List Char
  curCol : Nat
  curRow : Nat
  rgb : Int × Int × Int
deriving DecidableEq

/-- `lcd.clear()`: blank both rows, cursor home. -/
def lcdClear (d : Lcd) : Lcd :=
  { d with row0 := List.replicate 16 ' ', row1 := List.replicate 16 ' ',
           curCol := 0, curRow := 0 }

/-- `lcd.home()`. -/
def lcdHome (d : Lcd) : Lcd := { d with curCol := 0, curRow := 0 }

/-- `lcd.setCursor(col, row)`. -/
def lcdSetCursor (d : Lcd) (col row : Nat) : Lcd :=
  { d with curCol := col, curRow := row }

/-- Effect of printing `s` on one 16-cell row starting at column `col`. -/
def lcdPrintRow (row : List Char) (col : Nat) (s : List Char) : List Char :=
  (row.take col ++ s ++ row.drop (col + s.length)).take 16

/-- `lcd.print(s)`: write at the cursor, advancing it. -/
def lcdPrint (d : Lcd) (s : List Char) : Lcd :=
  if d.curRow = 0 then
    { d with row0 := lcdPrintRow d.row0 d.curCol s, curCol := d.curCol + s.length }
  else
    { d with row1 := lcdPrintRow d.row1 d.curCol s, curCol := d.curCol + s.length }

/-- A freshly constructed `LCD1602` instance (driver init clears the
display). -/
def freshLcd : Lcd :=
  { row0 := List.replicate 16 ' ', row1 := List.replicate 16 ' ',
    curCol := 0, curRow := 0, rgb := (0, 0, 0) }

/-- The `_DHT_CACHE` dictionary: last good `(temperature, humidity)` per
`(pin, module_type)` key. -/
abbrev DhtCache := Int × Int → Option (Rat × Rat)

/-- Dictionary store into the DHT cache. -/
def dhtUpdate (c : DhtCache) (k : Int × Int) (v : Rat × Rat) : DhtCache :=
  fun x => if x = k then some v else c x

/-- The process-wide mutable state: the `DIGITAL_PINS` pin objects, the
`_PWM_CACHE` (carrier frequency, duty) entries, the `_DHT_CACHE`, the
`_LCD_CACHE`, plus the two process-constant capabilities (whether the
`lcd1602` driver import succeeded, and whether the driver has `set_rgb`). -/
structure World where
  digital : Int → PinState
  pwm : Int → Option (Int × Int)
  dht : DhtCache
  lcdCache : List Char → Option Lcd
  lcdDriver : Bool
  hasSetRgb : Bool

/-- Keys of the `DIGITAL_PINS` map. -/
def digitalPinNos : List Int := [16, 18, 20]

/-- Keys of the `ANALOG_PINS` map. -/
def analogPinNos : List Int := [0, 1, 2]

/-- Membership in `DIGITAL_PINS`. -/
def isDigitalPin (n : Int) : Bool := digitalPinNos.contains n

/-- Membership in `ANALOG_PINS`. -/
def isAnalogPin (n : Int) : Bool := analogPinNos.contains n

/-- Replace the state of one digital pin. -/
def setPin (w : World) (pinNo : Int) (ps : PinState) : World :=
  { w with digital := fun k => if k = pinNo then ps else w.digital k }

/-- Per-call hardware oracle: the ADC raw sample, the echo pulse measurement
(`none` when `time_pulse_us` raises), the DHT measurement outcome (`none`
when `measure()` raises), and whether `lcd.clear()` succeeds. -/
structure Oracle where
  adc : Nat
  pulse : Option Int
  dhtMeas : Option (Rat × Rat)
  clearOk : Bool

/-! ## Device adapters -/

/-- `pinMode(pin, mode)`: analog pins are a no-op success; digital pins are
switched to input/output per a case-insensitive token. -/
def pinMode (w : World) (pinNo : Int) (mode : List Char) : Except Err World :=
  let m := pyLower mode
  if isAnalogPin pinNo then .ok w
  else if isDigitalPin pinNo then
    if m = "in".toList ∨ m = "input".toList then
      .ok (setPin w pinNo { w.digital pinNo with dir := PinDir.input })
    else if m = "out".toList ∨ m = "output".toList then
      .ok (setPin w pinNo { w.digital pinNo with dir := PinDir.output })
    else .error .unknownMode
  else .error .unknownDigitalPin

/-- `digitalWrite(pin, value)`: force output direction and drive the level
named by a case-insensitive `HIGH`/`LOW` token. -/
def digitalWrite (w : World) (pinNo : Int) (value : List Char) : Except Err World :=
  if isDigitalPin pinNo then
    let token := pyLower value
    if token = "high".toList then
      .ok (setPin w pinNo { dir := PinDir.output, level := true })
    else if token = "low".toList then
      .ok (setPin w pinNo { dir := PinDir.output, level := false })
    else .error .unknownLevel
  else .error .unknownDigitalPin

/-- `digitalRead(pin)`: force input direction, then sample; `1` when the
level reads true, else `0`. -/
def digitalRead (w : World) (pinNo : Int) : Except Err (Int × World) :=
  if isDigitalPin pinNo then
    let w' := setPin w pinNo { w.digital pinNo with dir := PinDir.input }
    let v := (w'.digital pinNo).level
    .ok (if v then 1 else 0, w')
  else .error .unknownDigitalPin

/-- `analogRead(pin)`: return the raw `ADC.read_u16()` sample (oracle). -/
def analogRead (pinNo : Int) (sample : Nat) : Except Err Int :=
  if isAnalogPin pinNo then .ok (sample : Int) else .error .unknownAnalogPin

/-- `analogWrite(pin, value)`: get or create the pin's PWM channel (created
at 1 kHz), clamp the value into `[0, 255]`, and set duty `value * 257`. -/
def analogWrite (w : World) (pinNo : Int) (value : Int) : Except Err World :=
  if isDigitalPin pinNo then
    let freq : Int :=
      match w.pwm pinNo with
      | some p => p.1
      | none => 1000
    let v0 := value
    let v1 := if v0 < 0 then 0 else v0
    let v2 := if v1 > 255 then 255 else v1
    let duty := v2 * 257
    .ok { w with pwm := fun k => if k = pinNo then some (freq, duty) else w.pwm k }
  else .error .unknownDigitalPin

/-- `ultrasonicRead(pin)`: fire the trigger pulse (net pin effect: input
direction, level low), then measure the echo.  `pulse = none` models
`time_pulse_us` raising (timeout); a non-positive duration is a pulse
error; otherwise distance is `int(duration / 58.0 + 0.5)` centimeters. -/
def ultrasonicRead (w : World) (pinNo : Int) (pulse : Option Int) :
    World × Except Err Int :=
  if isDigitalPin pinNo then
    let w' := setPin w pinNo { dir := PinDir.input, level := false }
    match pulse with
    | none => (w', .error .pulseTimeout)
    | some duration =>
      if duration ≤ 0 then (w', .error .pulseError)
      else (w', .ok (pyIntTrunc ((duration : Rat) / 58 + 1 / 2)))
  else (w, .error .unknownDigitalPin)

/-- `_get_lcd(key)`: lower-case the key, return the cached instance if any;
otherwise fail if the driver is unavailable or the channel unknown, else
construct and cache a fresh instance. -/
def getLcd (w : World) (key : List Char) : Except Err (Lcd × World) :=
  let k := pyLower key
  match w.lcdCache k with
  | some lcd => .ok (lcd, w)
  | none =>
    if w.lcdDriver = false then .error .lcdDriverUnavailable
    else if ¬ (k = "i2c0".toList ∨ k = "i2c1".toList) then .error .unknownLcdChannel
    else
      let lcd := freshLcd
      .ok (lcd, { w with lcdCache := fun x => if x = k then some lcd else w.lcdCache x })

/-- Rendering part of `write_lcd` on a retrieved LCD instance: strip, map
CR/LF to spaces, truncate to 32 chars, write the first 16 to line 1 and the
rest to line 2, after a best-effort clear (`clearOk = false` models
`lcd.clear()` raising; the failure is swallowed). -/
def writeLcdOn (d : Lcd) (rawText : List Char) (clearOk : Bool) : Lcd :=
  let text0 := strip rawText
  let text1 := (text0.map (fun c => if c = '\r' then ' ' else c)).map
    (fun c => if c = '\n' then ' ' else c)
  let text := text1.take 32
  let line1 := text.take 16
  let line2 := (text.drop 16).take 16
  let d0 := if clearOk then lcdClear d else d
  let d1 := lcdHome d0
  let d2 := lcdPrint d1 line1
  if line2 ≠ [] then lcdPrint (lcdSetCursor d2 0 1) line2 else d2

/-- `write_lcd(name, raw_text)`: fetch (possibly creating) the LCD for the
channel and render the text on it, storing the mutated instance back. -/
def writeLcd (w : World) (name : List Char) (rawText : List Char) (clearOk : Bool) :
    Except Err World :=
  match getLcd w name with
  | .error e => .error e
  | .ok (lcd, w') =>
    let lcd' := writeLcdOn lcd rawText clearOk
    .ok { w' with lcdCache := fun x => if x = pyLower name then some lcd' else w'.lcdCache x }

/-- `setText(bus, text)`: normalise the bus token and write the text. -/
def setText (w : World) (bus text : List Char) (clearOk : Bool) : Except Err World :=
  let busToken := pyLower bus
  if busToken = "0".toList ∨ busToken = "i2c0".toList then
    writeLcd w ("i2c0".toList) text clearOk
  else if busToken = "1".toList ∨ busToken = "i2c1".toList then
    writeLcd w ("i2c1".toList) text clearOk
  else .error .unknownBus

/-- `setRGB(bus, r, g, b)`: normalise the bus token, fetch the LCD, and set
the backlight colour when the driver supports it (no-op otherwise). -/
def setRGB (w : World) (bus : List Char) (r g b : Int) : Except Err World :=
  let busToken := pyLower bus
  let key :=
    if busToken = "0".toList ∨ busToken = "i2c0".toList then some ("i2c0".toList)
    else if busToken = "1".toList ∨ busToken = "i2c1".toList then some ("i2c1".toList)
    else none
  match key with
  | none => .error .unknownBus
  | some k =>
    match getLcd w k with
    | .error e => .error e
    | .ok (lcd, w') =>
      if w'.hasSetRgb then
        .ok { w' with lcdCache := fun x =>
          if x = pyLower k then some { lcd with rgb := (r, g, b) } else w'.lcdCache x }
      else .ok w'

/-- `dhtRead(pin, module_type)`: the pin handle is constructed directly from
the raw pin number (no lookup in `DIGITAL_PINS`); only `module_type` is
validated (`0` and `1`).  A fresh measurement is attempted (`meas` oracle,
`none` when `measure()` raises); on success the cache is updated and the
pair returned, on failure the cached pair is returned when present,
otherwise the failure propagates. -/
def dhtRead (cache : DhtCache) (pinNo moduleType : Int) (meas : Option (Rat × Rat)) :
    Except Err ((Rat × Rat) × DhtCache) :=
  if moduleType = 0 ∨ moduleType = 1 then
    let key := (pinNo, moduleType)
    match meas with
    | some th =>
      let cache' := dhtUpdate cache key th
      .ok (th, cache')
    | none =>
      match cache key with
      | some prev => .ok (prev, cache)
      | none => .error .measureFailed
  else .error .unknownModuleType

/-! ## Dispatcher (`handle_command`) -/

/-- `send_number`: decimal representation plus newline. -/
def sendNumber (n : Int) : String := toString n ++ "\n"

/-- `send_two_floats`: the `"a b\n"` response (the exact float formatting is
abstracted by `Rat`'s decimal rendering; no claim depends on it). -/
def sendTwoFloats (a b : Rat) : String := toString a ++ " " ++ toString b ++ "\n"

/-- Dispatch-level failure causes.  The source emits `send_error()` at each
of these points; the spec's design notes call for modelling them as a tagged
variant collapsed at the wire boundary. -/
inductive DispatchErr where
  | notACall
  | unknownCommand
  | arityMismatch
  | badInt
  | badToken
  | adapter (e : Err)
deriving DecidableEq

/-- The body of `handle_command`: parse the line, match the lower-cased name
against the fixed command set, check arity, parse integer arguments, and
invoke the adapter; the result is the updated world plus either the success
response text or the failure cause. -/
def dispatch (w : World) (o : Oracle) (line : List Char) :
    World × Except DispatchErr String :=
  match parseCall line with
  | none => (w, .error .notACall)
  | some (name, argsStr) =>
    let cmd := pyLower name
    if cmd = "pinmode".toList then
      match splitArgsM argsStr (-1) with
      | [p0, p1] =>
        match pyParseInt p0 with
        | none => (w, .error .badInt)
        | some pinNo =>
          match pinMode w pinNo p1 with
          | .ok w' => (w', .ok "\n")
          | .error e => (w, .error (.adapter e))
      | _ => (w, .error .arityMismatch)
    else if cmd = "digitalwrite".toList then
      match splitArgsM argsStr (-1) with
      | [p0, p1] =>
        match pyParseInt p0 with
        | none => (w, .error .badInt)
        | some pinNo =>
          match digitalWrite w pinNo p1 with
          | .ok w' => (w', .ok "\n")
          | .error e => (w, .error (.adapter e))
      | _ => (w, .error .arityMismatch)
    else if cmd = "digitalread".toList then
      match splitArgsM argsStr (-1) with
      | [p0] =>
        match pyParseInt p0 with
        | none => (w, .error .badInt)
        | some pinNo =>
          match digitalRead w pinNo with
          | .ok (v, w') => (w', .ok (sendNumber v))
          | .error e => (w, .error (.adapter e))
      | _ => (w, .error .arityMismatch)
    else if cmd = "analogread".toList then
      match splitArgsM argsStr (-1) with
      | [p0] =>
        match pyParseInt p0 with
        | none => (w, .error .badInt)
        | some pinNo =>
          match analogRead pinNo o.adc with
          | .ok v => (w, .ok (sendNumber v))
          | .error e => (w, .error (.adapter e))
      | _ => (w, .error .arityMismatch)
    else if cmd = "analogwrite".toList then
      match splitArgsM argsStr (-1) with
      | [p0, p1] =>
        match pyParseInt p0, pyParseInt p1 with
        | some pinNo, some value =>
          match analogWrite w pinNo value with
          | .ok w' => (w', .ok "\n")
          | .error e => (w, .error (.adapter e))
        | _, _ => (w, .error .badInt)
      | _ => (w, .error .arityMismatch)
    else if cmd = "ultrasonicread".toList then
      match splitArgsM argsStr (-1) with
      | [p0] =>
        match pyParseInt p0 with
        | none => (w, .error .badInt)
        | some pinNo =>
          match ultrasonicRead w pinNo o.pulse with
          | (w', .ok d) => (w', .ok (sendNumber d))
          | (w', .error e) => (w', .error (.adapter e))
      | _ => (w, .error .arityMismatch)
    else if cmd = "settext".toList then
      match splitArgsM argsStr 1 with
      | [p0, p1] =>
        let busToken := pyLower p0
        let key :=
          if busToken = "0".toList ∨ busToken = "i2c0".toList then some ("i2c0".toList)
          else if busToken = "1".toList ∨ busToken = "i2c1".toList then some ("i2c1".toList)
          else none
        match key with
        | none => (w, .error .badToken)
        | some _ =>
          match setText w busToken p1 o.clearOk with
          | .ok w' => (w', .ok "\n")
          | .error e => (w, .error (.adapter e))
      | _ => (w, .error .arityMismatch)
    else if cmd = "setrgb".toList then
      match splitArgsM argsStr (-1) with
      | [p0, p1, p2, p3] =>
        let busToken := pyLower p0
        let key :=
          if busToken = "0".toList ∨ busToken = "i2c0".toList then some ("i2c0".toList)
          else if busToken = "1".toList ∨ busToken = "i2c1".toList then some ("i2c1".toList)
          else none
        match key with
        | none => (w, .error .badToken)
        | some _ =>
          match pyParseInt p1, pyParseInt p2, pyParseInt p3 with
          | some r, some g, some b =>
            match setRGB w busToken r g b with
            | .ok w' => (w', .ok "\n")
            | .error e => (w, .error (.adapter e))
          | _, _, _ => (w, .error .badInt)
      | _ => (w, .error .arityMismatch)
    else if cmd = "dhtread".toList then
      match splitArgsM argsStr (-1) with
      | [p0, p1] =>
        match pyParseInt p0, pyParseInt p1 with
        | some pinNo, some moduleType =>
          match dhtRead w.dht pinNo moduleType o.dhtMeas with
          | .ok (th, cache') => ({ w with dht := cache' }, .ok (sendTwoFloats th.1 th.2))
          | .error e => (w, .error (.adapter e))
        | _, _ => (w, .error .badInt)
      | _ => (w, .error .arityMismatch)
    else (w, .error .unknownCommand)

/-- `handle_command` at the wire boundary: every failure cause is collapsed
to the single `send_error()` response `"error\n"`. -/
def handleCommand (w : World) (o : Oracle) (line : List Char) : World × String :=
  match dispatch w o line with
  | (w', .ok out) => (w', out)
  | (w', .error _) => (w', "error\n")

/-- Reference world: the state right after boot (`DIGITAL_PINS` constructed
as outputs driving low, all caches empty, the LCD driver import succeeded
and the driver has `set_rgb`). -/
def w0 : World where
  digital := fun _ => { dir := PinDir.output, level := false }
  pwm := fun _ => none
  dht := fun _ => none
  lcdCache := fun _ => none
  lcdDriver := true
  hasSetRgb := true

/-- Reference oracle: all hardware interactions fail or return zero. -/
def o0 : Oracle where
  adc := 0
  pulse := none
  dhtMeas := none
  clearOk := true

/-! ## Spec-side definitions

Definitions in this section follow the specification's wording, to be
compared against the definitions translated from the source above. -/

/-- Round-half-up of a rational, as the spec describes the ranging result
(`round(duration / 58.0)` using round-half-up). -/
def roundHalfUp (q : Rat) : Int := ⌊q + 1 / 2⌋

/-- The display text transformation as the spec describes it: trimmed of
leading/trailing whitespace, carriage returns and line feeds replaced with a
single space, truncated to 32 characters total. -/
def lcdRendered (raw : List Char) : List Char :=
  ((strip raw).map (fun c => if c = '\r' ∨ c = '\n' then ' ' else c)).take 32

/-- Joining pieces with commas; the spec's "comma-separated pieces" are
characterised by containing no comma and re-joining to the original
string. -/
def joinComma : List (List Char) → List Char
  | [] => []
  | [p] => p
  | p :: ps => p ++ ',' :: joinComma ps

/-- Modelled from the spec and claim C5 wording: the parser per the claim,
in which the argument string is "the text strictly between the first `(`
and the last `)`" — that is, the raw slice, not stripped.  It differs from
the source's `_parse_call` exactly in the final strip of the slice. -/
def parseCallClaimed (line : List Char) : Option (List Char × List Char) :=
  if line = [] then none
  else
    let s := strip line
    if s = [] then none
    else
      let l := pyFind '(' s
      let r := pyRFind ')' s
      if l ≤ 0 ∨ r ≤ l then none
      else some (strip (s.take l.toNat), (s.take r.toNat).drop (l.toNat + 1))

/-! ## Theorems -/

/-- Truncation toward zero agrees with the floor on non-negative
rationals. -/
theorem pyIntTrunc_eq_floor (q : Rat) (hq : 0 ≤ q) : pyIntTrunc q = ⌊q⌋ := by
  unfold pyIntTrunc
  rw [Rat.floor_def]
  exact Int.tdiv_eq_ediv (Rat.num_nonneg.mpr hq) (Int.ofNat_nonneg q.den)

/-- Any dispatch error is written to the wire as `"error\n"`. -/
theorem dispatch_error_output (w : World) (o : Oracle) (line : List Char)
    (e : DispatchErr) (h : (dispatch w o line).2 = .error e) :
    (handleCommand w o line).2 = "error\n" := by
  unfold handleCommand
  rcases hd : dispatch w o line with ⟨w', r⟩
  rw [hd] at h
  cases r with
  | ok out => simp at h
  | error e' => rfl

/-- C1: for every input line, whenever the dispatcher fails — the line does
not parse as a call, the command is unrecognised, the argument count is
wrong, an integer argument fails to parse, a bus token is invalid, or the
invoked adapter operation raises — the response written is exactly the
literal line `"error\n"`, one undifferentiated failure response for all
causes. -/
theorem handle_command_error_collapse (w : World) (o : Oracle) (line : List Char)
    (e : DispatchErr) (h : (dispatch w o line).2 = .error e) :
    (handleCommand w o line).2 = "error\n" :=
  dispatch_error_output w o line e h

theorem handle_command_error_collapse_witness :
    (dispatch w0 o0 ("foo".toList)).2 = .error .notACall ∧
    (handleCommand w0 o0 ("foo".toList)).2 = "error\n" :=
  ⟨rfl, handle_command_error_collapse w0 o0 ("foo".toList) .notACall rfl⟩

/-- C2: for every `(pin, module_type)` key with a valid module type, a
successful measurement stores the pair in the cache and returns it; a failed
measurement returns the exact cached pair when a prior success exists (cache
unchanged), and propagates the failure when none does.  The cache is updated
only on success and never invalidated. -/
theorem dhtRead_cache_fallback (cache : DhtCache) (pinNo mt : Int) (t h : Rat)
    (p : Rat × Rat) (hmt : mt = 0 ∨ mt = 1) :
    dhtRead cache pinNo mt (some (t, h)) =
      .ok ((t, h), dhtUpdate cache (pinNo, mt) (t, h)) ∧
    (cache (pinNo, mt) = some p → dhtRead cache pinNo mt none = .ok (p, cache)) ∧
    (cache (pinNo, mt) = none → dhtRead cache pinNo mt none = .error .measureFailed) := by
  have h1 : dhtRead cache pinNo mt (some (t, h)) =
      .ok ((t, h), dhtUpdate cache (pinNo, mt) (t, h)) := by
    simp only [dhtRead, if_pos hmt]
  refine ⟨h1, fun hc => ?_, fun hc => ?_⟩ <;> simp only [dhtRead, if_pos hmt, hc]

theorem dhtRead_cache_fallback_witness :
    ((0 : Int) = 0 ∨ (0 : Int) = 1) ∧ w0.dht (16, 0) = none ∧
    dhtRead w0.dht 16 0 none = .error .measureFailed :=
  ⟨Or.inl rfl, rfl, (dhtRead_cache_fallback w0.dht 16 0 0 0 (0, 0) (Or.inl rfl)).2.2 rfl⟩

/-- C4: for every recognised digital pin and every integer value,
`analogWrite` succeeds (no error for out-of-range values), sets the PWM duty
to `257 * clamp(v, 0, 255)`, and is observably identical to `analogWrite`
of the clamped value. -/
theorem analogWrite_clamps (w : World) (pinNo v : Int) (hp : isDigitalPin pinNo = true) :
    (∃ w', analogWrite w pinNo v = .ok w' ∧
      (w'.pwm pinNo).map Prod.snd = some (257 * min (max v 0) 255)) ∧
    analogWrite w pinNo v = analogWrite w pinNo (min (max v 0) 255) := by
  have hd : ∀ u : Int,
      (if (if u < 0 then 0 else u) > 255 then 255 else if u < 0 then 0 else u) =
        min (max u 0) 255 := by
    intro u
    rw [max_def, min_def]
    split_ifs <;> omega
  have hcl : min (max (min (max v 0) 255) 0) 255 = min (max v 0) 255 := by
    rw [← hd, ← hd v]
    split_ifs <;> omega
  simp only [analogWrite, if_pos hp, hd]
  constructor
  · refine ⟨_, rfl, ?_⟩
    simp only [if_pos rfl, if_true]
    simp [mul_comm]
  · rw [hcl]

theorem analogWrite_clamps_witness :
    isDigitalPin 16 = true ∧
    ((∃ w', analogWrite w0 16 500 = .ok w' ∧
        (w'.pwm 16).map Prod.snd = some (257 * min (max (500 : Int) 0) 255)) ∧
      analogWrite w0 16 500 = analogWrite w0 16 (min (max (500 : Int) 0) 255)) :=
  ⟨by decide, analogWrite_clamps w0 16 500 (by decide)⟩

/-- C10: `dhtRead` never rejects a pin with the unknown-pin error used by
every other pin-taking adapter (the pin handle is built directly from the
raw number, bypassing the `DIGITAL_PINS` allowlist); only the module type is
validated, accepting exactly `0` and `1`. -/
theorem dhtRead_no_pin_validation (cache : DhtCache) (pinNo mt : Int)
    (meas : Option (Rat × Rat)) :
    dhtRead cache pinNo mt meas ≠ .error .unknownDigitalPin ∧
    (dhtRead cache pinNo mt meas = .error .unknownModuleType ↔ (mt ≠ 0 ∧ mt ≠ 1)) := by
  unfold dhtRead
  by_cases hmt : mt = 0 ∨ mt = 1
  · simp only [if_pos hmt]
    cases meas with
    | some th => simp; tauto
    | none =>
      cases hc : cache (pinNo, mt) with
      | some prev => simp; tauto
      | none => simp; tauto
  · simp only [if_neg hmt]
    constructor
    · simp
    · simp
      tauto

theorem dhtRead_no_pin_validation_witness :
    dhtRead w0.dht 999 5 none = .error .unknownModuleType :=
  (dhtRead_no_pin_validation w0.dht 999 5 none).2.mpr (by decide)

/-- C8: for every recognised digital pin, `digitalWrite` of a token
lowering to `high` (resp. `low`) succeeds, and a subsequent `digitalRead`
— which forces the pin to input before sampling — returns `1`
(resp. `0`). -/
theorem digital_write_read_roundtrip (w : World) (pinNo : Int) (tokH tokL : List Char)
    (hp : isDigitalPin pinNo = true) :
    (pyLower tokH = "high".toList →
      ∃ w1 w2, digitalWrite w pinNo tokH = .ok w1 ∧ digitalRead w1 pinNo = .ok (1, w2)) ∧
    (pyLower tokL = "low".toList →
      ∃ w1 w2, digitalWrite w pinNo tokL = .ok w1 ∧ digitalRead w1 pinNo = .ok (0, w2)) := by
  constructor
  · intro ht
    refine ⟨setPin w pinNo { dir := PinDir.output, level := true },
      setPin (setPin w pinNo { dir := PinDir.output, level := true }) pinNo
        { dir := PinDir.input, level := true }, ?_, ?_⟩
    · simp [digitalWrite, hp, ht]
    · simp [digitalRead, hp, setPin]
  · intro ht
    refine ⟨setPin w pinNo { dir := PinDir.output, level := false },
      setPin (setPin w pinNo { dir := PinDir.output, level := false }) pinNo
        { dir := PinDir.input, level := false }, ?_, ?_⟩
    · simp [digitalWrite, hp, ht]
    · simp [digitalRead, hp, setPin]

theorem digital_write_read_roundtrip_witness :
    isDigitalPin 16 = true ∧ pyLower ("HIGH".toList) = "high".toList ∧
    (∃ w1 w2, digitalWrite w0 16 ("HIGH".toList) = .ok w1 ∧
      digitalRead w1 16 = .ok (1, w2)) ∧
    (∃ w1 w2, digitalWrite w0 16 ("Low".toList) = .ok w1 ∧
      digitalRead w1 16 = .ok (0, w2)) :=
  ⟨by decide, by decide,
    (digital_write_read_roundtrip w0 16 ("HIGH".toList) ("Low".toList) (by decide)).1
      (by decide),
    (digital_write_read_roundtrip w0 16 ("HIGH".toList) ("Low".toList) (by decide)).2
      (by decide)⟩

/-- C3: for every recognised digital pin, a timeout of the echo measurement
fails, a non-positive measured duration fails, and a positive duration `d`
yields the round-half-up of `d / 58` centimeters (the source's
`int(d / 58.0 + 0.5)` truncation). -/
theorem ultrasonicRead_rounding (w : World) (pinNo d : Int)
    (hp : isDigitalPin pinNo = true) :
    (ultrasonicRead w pinNo none).2 = .error .pulseTimeout ∧
    (d ≤ 0 → (ultrasonicRead w pinNo (some d)).2 = .error .pulseError) ∧
    (0 < d → (ultrasonicRead w pinNo (some d)).2 = .ok (roundHalfUp ((d : Rat) / 58))) := by
  refine ⟨by simp [ultrasonicRead, hp], fun hd => by simp [ultrasonicRead, hp, hd],
    fun hd => ?_⟩
  have hnn : ¬ d ≤ 0 := by omega
  simp only [ultrasonicRead, hp, if_true, if_neg hnn]
  have hq : (0 : Rat) ≤ (d : Rat) / 58 + 1 / 2 := by positivity
  rw [pyIntTrunc_eq_floor _ hq]
  rfl

theorem ultrasonicRead_rounding_witness :
    isDigitalPin 16 = true ∧ (0 : Int) < 580 ∧
    (ultrasonicRead w0 16 (some 580)).2 = .ok 10 ∧
    (ultrasonicRead w0 16 (some 0)).2 = .error .pulseError := by
  refine ⟨by decide, by decide, ?_, ?_⟩
  · rw [(ultrasonicRead_rounding w0 16 580 (by decide)).2.2 (by decide)]
    norm_num [roundHalfUp]
  · exact (ultrasonicRead_rounding w0 16 0 (by decide)).2.1 (by decide)

/-- `pySplit` always yields at least one piece. -/
theorem pySplit_ne_nil (sep : Char) (s : List Char) : pySplit sep s ≠ [] := by
  induction s with
  | nil => simp [pySplit]
  | cons c rest ih =>
    unfold pySplit
    split_ifs
    · simp
    · cases h : pySplit sep rest with
      | nil => simp
      | cons p ps => simp

/-- Unfolding equation for `joinComma` on two or more pieces. -/
theorem joinComma_cons_cons (p q : List Char) (ps : List (List Char)) :
    joinComma (p :: q :: ps) = p ++ ',' :: joinComma (q :: ps) := rfl

/-- Re-joining the split pieces with commas restores the original string. -/
theorem joinComma_pySplit (s : List Char) : joinComma (pySplit ',' s) = s := by
  induction s with
  | nil => rfl
  | cons c rest ih =>
    unfold pySplit
    by_cases hc : c = ','
    · rw [if_pos hc, hc]
      rcases h : pySplit ',' rest with _ | ⟨p, ps⟩
      · exact absurd h (pySplit_ne_nil ',' rest)
      · rw [h] at ih
        rw [joinComma_cons_cons, ih]
        rfl
    · rw [if_neg hc]
      rcases h : pySplit ',' rest with _ | ⟨p, ps⟩
      · exact absurd h (pySplit_ne_nil ',' rest)
      · rw [h] at ih
        cases ps with
        | nil =>
          have hpr : p = rest := ih
          show c :: p = c :: rest
          rw [hpr]
        | cons q qs =>
          rw [joinComma_cons_cons] at ih ⊢
          simpa using ih

/-- No piece produced by `pySplit` contains the separator. -/
theorem pySplit_no_sep (sep : Char) (s : List Char) : ∀ p ∈ pySplit sep s, sep ∉ p := by
  induction s with
  | nil =>
    intro p hp
    simp [pySplit] at hp
    simp [hp]
  | cons c rest ih =>
    intro p hp
    unfold pySplit at hp
    by_cases hc : c = sep
    · rw [if_pos hc] at hp
      rcases List.mem_cons.mp hp with rfl | hp'
      · simp
      · exact ih p hp'
    · rw [if_neg hc] at hp
      rcases h : pySplit sep rest with _ | ⟨q, qs⟩
      · rw [h] at hp
        simp at hp
        simp [hp]
        intro he
        exact hc he.symm
      · rw [h] at hp
        rcases List.mem_cons.mp hp with rfl | hp'
        · have hq : sep ∉ q := ih q (by rw [h]; exact List.mem_cons_self q qs)
          simp [List.mem_cons, hq]
          intro he
          exact hc he.symm
        · exact ih p (by rw [h]; exact List.mem_cons_of_mem q hp')

/-- `pySplitOnce` yields at most two pieces. -/
theorem pySplitOnce_len (sep : Char) (s : List Char) : (pySplitOnce sep s).length ≤ 2 := by
  induction s with
  | nil => simp [pySplitOnce]
  | cons c rest ih =>
    unfold pySplitOnce
    split_ifs
    · simp
    · rcases h : pySplitOnce sep rest with _ | ⟨p, ps⟩
      · simp
      · rcases ps with _ | ⟨q, qs⟩
        · simp
        · rw [h] at ih
          simpa using ih

/-- `pySplitOnce` at the first separator: everything after it — further
separators included — stays in the second piece. -/
theorem pySplitOnce_first (x y : List Char) (hx : ',' ∉ x) :
    pySplitOnce ',' (x ++ ',' :: y) = [x, y] := by
  induction x with
  | nil => simp [pySplitOnce]
  | cons c xs ih =>
    have hc : ¬ c = ',' := fun h => hx (by simp [h])
    have hxs : ',' ∉ xs := fun h => hx (List.mem_cons_of_mem c h)
    show pySplitOnce ',' (c :: (xs ++ ',' :: y)) = [c :: xs, y]
    unfold pySplitOnce
    rw [if_neg hc, ih hxs]

/-- C6: the default argument split produces the comma-separated pieces (no
piece contains a comma and re-joining with commas restores the raw string)
each trimmed, with empty pieces dropped; the `maxsplit = 1` variant used by
`setText` splits at the first comma only, yields at most two pieces, and
keeps commas after the first verbatim inside the second piece. -/
theorem splitArgs_spec (a x y : List Char) :
    joinComma (pySplit ',' a) = a ∧
    (∀ p ∈ pySplit ',' a, ',' ∉ p) ∧
    splitArgsM a (-1) = ((pySplit ',' a).map strip).filter (fun p => p ≠ []) ∧
    (splitArgsM a 1).length ≤ 2 ∧
    (',' ∉ x → splitArgsM (x ++ ',' :: y) 1 =
      ([strip x, strip y].filter (fun p => p ≠ []))) := by
  refine ⟨joinComma_pySplit a, pySplit_no_sep ',' a, ?_, ?_, fun hx => ?_⟩
  · by_cases ha : a = []
    · subst ha
      decide
    · simp only [splitArgsM, if_neg ha]
      rw [if_neg (by decide : ¬ (-1 : Int) = 1)]
  · by_cases ha : a = []
    · subst ha
      simp [splitArgsM]
    · simp only [splitArgsM, if_neg ha, if_pos rfl]
      refine le_trans (List.length_filter_le _ _) ?_
      rw [List.length_map]
      exact pySplitOnce_len ',' a
  · have hne : ¬ x ++ ',' :: y = [] := by simp
    simp only [splitArgsM, if_neg hne, if_true]
    rw [pySplitOnce_first x y hx]
    rfl

theorem splitArgs_spec_witness :
    (',' ∉ ("0".toList)) ∧
    splitArgsM (("0".toList) ++ ',' :: (" hi, there".toList)) 1 =
      ([strip ("0".toList), strip (" hi, there".toList)].filter (fun p => p ≠ [])) :=
  ⟨by decide,
    (splitArgs_spec [] ("0".toList) (" hi, there".toList)).2.2.2.2 (by decide)⟩

/-- The two sequential single-character replacements fuse into one map. -/
theorem crlf_map_fuse (s : List Char) :
    ((s.map (fun c => if c = '\r' then ' ' else c)).map
      (fun c => if c = '\n' then ' ' else c)) =
      s.map (fun c => if c = '\r' ∨ c = '\n' then ' ' else c) := by
  rw [List.map_map]
  congr 1
  funext c
  by_cases h1 : c = '\r'
  · subst h1
    simp
  · by_cases h2 : c = '\n'
    · subst h2
      simp
    · simp [Function.comp, h1, h2]

/-- Printing at column 0 of a full 16-cell row overwrites its prefix and
keeps the remainder. -/
theorem lcdPrintRow_zero (row s : List Char) (hrow : row.length = 16)
    (hs : s.length ≤ 16) : lcdPrintRow row 0 s = s ++ row.drop s.length := by
  unfold lcdPrintRow
  simp only [List.take_zero, List.nil_append, Nat.zero_add]
  apply List.take_of_length_le
  simp only [List.length_append, List.length_drop, hrow]
  omega

/-- Net effect of the home/print/setCursor/print pipeline of `write_lcd` on
a display with full 16-cell rows. -/
theorem writeLcd_pipeline (d : Lcd) (l1 l2 : List Char)
    (hl1 : l1.length ≤ 16) (hl2 : l2.length ≤ 16)
    (hr0 : d.row0.length = 16) (hr1 : d.row1.length = 16) :
    (if l2 ≠ [] then lcdPrint (lcdSetCursor (lcdPrint (lcdHome d) l1) 0 1) l2
      else lcdPrint (lcdHome d) l1).row0 = l1 ++ d.row0.drop l1.length ∧
    (if l2 ≠ [] then lcdPrint (lcdSetCursor (lcdPrint (lcdHome d) l1) 0 1) l2
      else lcdPrint (lcdHome d) l1).row1 = l2 ++ d.row1.drop l2.length := by
  have e1 : lcdPrint (lcdHome d) l1 =
      { d with row0 := lcdPrintRow d.row0 0 l1, curCol := 0 + l1.length, curRow := 0 } := by
    simp [lcdPrint, lcdHome]
  have e2 : lcdPrint (lcdSetCursor (lcdPrint (lcdHome d) l1) 0 1) l2 =
      { d with row0 := lcdPrintRow d.row0 0 l1, row1 := lcdPrintRow d.row1 0 l2,
               curCol := 0 + l2.length, curRow := 1 } := by
    rw [e1]
    simp [lcdPrint, lcdSetCursor]
  by_cases h : l2 = []
  · subst h
    rw [if_neg (by simp), e1]
    refine ⟨lcdPrintRow_zero d.row0 l1 hr0 hl1, ?_⟩
    show d.row1 = [] ++ d.row1.drop ([] : List Char).length
    simp
  · rw [if_pos h, e2]
    exact ⟨lcdPrintRow_zero d.row0 l1 hr0 hl1, lcdPrintRow_zero d.row1 l2 hr1 hl2⟩

/-- C7: `write_lcd` renders the trimmed text with carriage returns and line
feeds replaced by spaces and truncated to 32 characters; the first 16 go to
line 1 and characters 17 to 32 to line 2; the pre-write clear is best-effort
(`clearOk = false`, a swallowed clear failure, still writes), and no padding
fills unused cells — the base row content survives past the written text. -/
theorem write_lcd_rendering (d : Lcd) (raw : List Char) (clearOk : Bool)
    (h0 : d.row0.length = 16) (h1 : d.row1.length = 16) :
    (writeLcdOn d raw clearOk).row0 =
      (lcdRendered raw).take 16 ++
        (if clearOk then List.replicate 16 ' ' else d.row0).drop
          ((lcdRendered raw).take 16).length ∧
    (writeLcdOn d raw clearOk).row1 =
      (lcdRendered raw).drop 16 ++
        (if clearOk then List.replicate 16 ' ' else d.row1).drop
          ((lcdRendered raw).drop 16).length := by
  have hfuse := crlf_map_fuse (strip raw)
  set t := (strip raw).map (fun c => if c = '\r' ∨ c = '\n' then ' ' else c) with ht
  have hl2eq : ((t.take 32).drop 16).take 16 = (t.take 32).drop 16 := by
    apply List.take_of_length_le
    simp only [List.length_drop, List.length_take]
    omega
  have hlen1 : ((t.take 32).take 16).length ≤ 16 := by
    simp only [List.length_take]
    omega
  have hlen2 : ((t.take 32).drop 16).length ≤ 16 := by
    simp only [List.length_drop, List.length_take]
    omega
  have hb0 : (if clearOk then lcdClear d else d).row0.length = 16 := by
    cases clearOk <;> simp [lcdClear, h0]
  have hb1 : (if clearOk then lcdClear d else d).row1.length = 16 := by
    cases clearOk <;> simp [lcdClear, h1]
  have hp := writeLcd_pipeline (if clearOk then lcdClear d else d)
    ((t.take 32).take 16) ((t.take 32).drop 16) hlen1 hlen2 hb0 hb1
  have hr0eq : (if clearOk then lcdClear d else d).row0 =
      (if clearOk then List.replicate 16 ' ' else d.row0) := by
    cases clearOk <;> simp [lcdClear]
  have hr1eq : (if clearOk then lcdClear d else d).row1 =
      (if clearOk then List.replicate 16 ' ' else d.row1) := by
    cases clearOk <;> simp [lcdClear]
  rw [hr0eq, hr1eq] at hp
  simp only [writeLcdOn, hfuse, lcdRendered, ← ht, hl2eq]
  exact hp

theorem write_lcd_rendering_witness :
    freshLcd.row0.length = 16 ∧ freshLcd.row1.length = 16 ∧
    ((writeLcdOn freshLcd ("  hello\nworld, over thirty-two chars".toList) true).row0 =
      (lcdRendered ("  hello\nworld, over thirty-two chars".toList)).take 16 ++
        (if true then List.replicate 16 ' ' else freshLcd.row0).drop
          ((lcdRendered ("  hello\nworld, over thirty-two chars".toList)).take 16).length ∧
    (writeLcdOn freshLcd ("  hello\nworld, over thirty-two chars".toList) true).row1 =
      (lcdRendered ("  hello\nworld, over thirty-two chars".toList)).drop 16 ++
        (if true then List.replicate 16 ' ' else freshLcd.row1).drop
          ((lcdRendered ("  hello\nworld, over thirty-two chars".toList)).drop 16).length) :=
  ⟨by decide, by decide,
    write_lcd_rendering freshLcd ("  hello\nworld, over thirty-two chars".toList) true
      (by decide) (by decide)⟩

/-- C9: for every input line of the form `setText(bus, t)` where the text
after the first comma is empty or whitespace-only, the dispatcher responds
`"error\n"`: the argument splitter drops the empty stripped piece and the
exact-two-pieces arity check fails — even though the display adapter itself
accepts an empty string (second conjunct). -/
theorem settext_empty_text_rejected (w : World) (o : Oracle)
    (line name args pre post : List Char)
    (hparse : parseCall line = some (name, args))
    (hcmd : pyLower name = "settext".toList)
    (hsplit : pySplitOnce ',' args = [pre, post])
    (hpost : strip post = []) :
    (handleCommand w o line).2 = "error\n" ∧
    (∀ wa : World, wa.lcdDriver = true → ∀ cOk : Bool,
      ∃ wb, setText wa ("0".toList) [] cOk = .ok wb) := by
  constructor
  · have hargs : ¬ args = [] := by
      intro ha
      rw [ha] at hsplit
      simp [pySplitOnce] at hsplit
    have hsa : splitArgsM args 1 =
        List.filter (fun p => p ≠ []) [strip pre, strip post] := by
      simp only [splitArgsM, if_neg hargs, if_true]
      rw [hsplit]
      rfl
    rw [hpost] at hsa
    apply dispatch_error_output w o line .arityMismatch
    simp only [dispatch, hparse, hcmd]
    rw [if_neg (by decide), if_neg (by decide), if_neg (by decide), if_neg (by decide),
        if_neg (by decide), if_neg (by decide), if_pos trivial, hsa]
    by_cases hsp : strip pre = []
    · rw [hsp]
      rfl
    · rw [List.filter_cons_of_pos (by simpa using hsp)]
      rfl
  · intro wa hw cOk
    have hst : setText wa ("0".toList) [] cOk = writeLcd wa ("i2c0".toList) [] cOk := by
      unfold setText
      rw [if_pos (by decide)]
    have hlow : pyLower ("i2c0".toList) = ("i2c0".toList) := by decide
    have hget : ∃ lcd wx, getLcd wa ("i2c0".toList) = .ok (lcd, wx) := by
      cases hc : wa.lcdCache ("i2c0".toList) with
      | some lcd =>
        refine ⟨lcd, wa, ?_⟩
        simp only [getLcd, hlow, hc]
      | none =>
        refine ⟨freshLcd, { wa with lcdCache := fun x =>
          if x = "i2c0".toList then some freshLcd else wa.lcdCache x }, ?_⟩
        simp only [getLcd, hlow, hc, hw]
        rw [if_neg (by decide), if_neg (by decide)]
    rcases hget with ⟨lcd, wx, hget⟩
    rw [hst]
    unfold writeLcd
    rw [hget]
    exact ⟨_, rfl⟩

theorem settext_empty_text_rejected_witness :
    parseCall ("setText(0,   )".toList) = some ("setText".toList, "0,".toList) ∧
    pyLower ("setText".toList) = "settext".toList ∧
    pySplitOnce ',' ("0,".toList) = ["0".toList, ([] : List Char)] ∧
    strip ([] : List Char) = [] ∧
    (handleCommand w0 o0 ("setText(0,   )".toList)).2 = "error\n" :=
  ⟨by decide, by decide, by decide, rfl,
    (settext_empty_text_rejected w0 o0 ("setText(0,   )".toList) ("setText".toList)
      ("0,".toList) ("0".toList) [] (by decide) (by decide) (by decide) rfl).1⟩

/-- `findChar` misses exactly the absent characters. -/
theorem findChar_eq_none (c : Char) (s : List Char) : findChar c s = none ↔ c ∉ s := by
  induction s with
  | nil => simp [findChar]
  | cons x xs ih =>
    unfold findChar
    by_cases hx : x = c
    · subst hx
      simp
    · rw [if_neg hx]
      constructor
      · intro h
        have h0 : findChar c xs = none := by
          cases hf : findChar c xs
          · rfl
          · rw [hf] at h
            simp at h
        have hxs := ih.mp h0
        simp only [List.mem_cons, not_or]
        exact ⟨fun he => hx he.symm, hxs⟩
      · intro h
        simp only [List.mem_cons, not_or] at h
        rw [ih.mpr h.2]
        rfl

/-- `findChar` finds the first occurrence. -/
theorem findChar_append (c : Char) (a b : List Char) (h : c ∉ a) :
    findChar c (a ++ c :: b) = some a.length := by
  induction a with
  | nil => simp [findChar]
  | cons x xs ih =>
    have hx : ¬ x = c := fun he => h (by simp [he])
    have hxs : c ∉ xs := fun hm => h (List.mem_cons_of_mem x hm)
    show findChar c (x :: (xs ++ c :: b)) = some (xs.length + 1)
    unfold findChar
    rw [if_neg hx, ih hxs]
    rfl

/-- A successful `findChar` splits the string at the first occurrence. -/
theorem findChar_split (c : Char) (s : List Char) (i : Nat)
    (h : findChar c s = some i) :
    ∃ a b, s = a ++ c :: b ∧ a.length = i ∧ c ∉ a := by
  induction s generalizing i with
  | nil => simp [findChar] at h
  | cons x xs ih =>
    unfold findChar at h
    by_cases hx : x = c
    · subst hx
      rw [if_pos rfl] at h
      injection h with h
      exact ⟨[], xs, rfl, h, by simp⟩
    · rw [if_neg hx] at h
      rcases hf : findChar c xs with _ | i'
      · rw [hf] at h
        simp at h
      · rw [hf] at h
        injection h with h
        rcases ih i' hf with ⟨a, b, hs, hlen, hmem⟩
        refine ⟨x :: a, b, by rw [hs]; rfl, by simp [hlen, ← h], ?_⟩
        intro hm
        rcases List.mem_cons.mp hm with he | hm'
        · exact hx he.symm
        · exact hmem hm'

/-- A hit in a prefix is a hit in the whole string. -/
theorem findChar_prefix (c : Char) (a b : List Char) (m : Nat)
    (h : findChar c a = some m) : findChar c (a ++ b) = some m := by
  induction a generalizing m with
  | nil => simp [findChar] at h
  | cons x xs ih =>
    have hgoal : findChar c (x :: xs ++ b) =
        if x = c then some 0 else (findChar c (xs ++ b)).map (· + 1) := rfl
    have hh : findChar c (x :: xs) =
        if x = c then some 0 else (findChar c xs).map (· + 1) := rfl
    rw [hh] at h
    rw [hgoal]
    by_cases hx : x = c
    · rw [if_pos hx] at h ⊢
      exact h
    · rw [if_neg hx] at h ⊢
      rcases hf : findChar c xs with _ | m'
      · rw [hf] at h
        simp at h
      · rw [hf] at h
        rw [ih m' hf]
        exact h

/-- A found index is within bounds. -/
theorem findChar_lt_length (c : Char) (s : List Char) (i : Nat)
    (h : findChar c s = some i) : i < s.length := by
  rcases findChar_split c s i h with ⟨a, b, hs, hlen, _⟩
  rw [hs, ← hlen]
  simp

/-- Unfolding `pyFind` on a hit. -/
theorem pyFind_eq_some (c : Char) (s : List Char) (i : Nat)
    (h : findChar c s = some i) : pyFind c s = (i : Int) := by
  simp [pyFind, h]

/-- Unfolding `pyRFind` on a hit in the reversed string. -/
theorem pyRFind_eq_some (c : Char) (s : List Char) (j : Nat)
    (h : findChar c s.reverse = some j) :
    pyRFind c s = (s.length : Int) - 1 - (j : Int) := by
  simp [pyRFind, h]

/-- Unfolding `pyFind` on a miss. -/
theorem pyFind_eq_neg (c : Char) (s : List Char) (h : findChar c s = none) :
    pyFind c s = -1 := by
  simp [pyFind, h]

/-- Unfolding `pyRFind` on a miss. -/
theorem pyRFind_eq_neg (c : Char) (s : List Char) (h : findChar c s.reverse = none) :
    pyRFind c s = -1 := by
  simp [pyRFind, h]

/-- A successful parse exposes the shape of the stripped line: a non-empty
name part with no `(`, the first `(`, the argument slice, the last `)`, and
a `)`-free tail. -/
theorem parseCall_some_decomp (line n a : List Char)
    (h : parseCall line = some (n, a)) :
    ∃ pre mid post, strip line = pre ++ '(' :: (mid ++ ')' :: post) ∧
      pre ≠ [] ∧ '(' ∉ pre ∧ ')' ∉ post ∧ n = strip pre ∧ a = strip mid := by
  by_cases hl : line = []
  · rw [hl] at h
    simp [parseCall] at h
  · simp only [parseCall, if_neg hl] at h
    by_cases hs : strip line = []
    · rw [if_pos hs] at h
      simp at h
    · rw [if_neg hs] at h
      rcases hf : findChar '(' (strip line) with _ | i
      · rw [pyFind_eq_neg _ _ hf] at h
        rw [if_pos (Or.inl (by omega))] at h
        simp at h
      · rcases hr : findChar ')' (strip line).reverse with _ | j
        · rw [pyFind_eq_some _ _ _ hf, pyRFind_eq_neg _ _ hr] at h
          rw [if_pos (Or.inr (by omega))] at h
          simp at h
        · rw [pyFind_eq_some _ _ _ hf, pyRFind_eq_some _ _ _ hr] at h
          by_cases hg : (i : Int) ≤ 0 ∨ ((strip line).length : Int) - 1 - (j : Int) ≤ (i : Int)
          · rw [if_pos hg] at h
            simp at h
          · rw [if_neg hg] at h
            push_neg at hg
            obtain ⟨hg1, hg2⟩ := hg
            have hjlen := findChar_lt_length _ _ _ hr
            rw [List.length_reverse] at hjlen
            have hi0 : 0 < i := by exact_mod_cast hg1
            have hirn : i + 1 ≤ (strip line).length - 1 - j := by omega
            have htn1 : ((i : Int)).toNat = i := by omega
            have htn2 : (((strip line).length : Int) - 1 - (j : Int)).toNat =
                (strip line).length - 1 - j := by omega
            rw [htn1, htn2] at h
            injection h with hpair
            rw [Prod.mk.injEq] at hpair
            obtain ⟨hn, ha⟩ := hpair
            rcases findChar_split _ _ _ hf with ⟨A, B, hsAB, hAlen, hAmem⟩
            rcases findChar_split _ _ _ hr with ⟨C, D, hsCD, hClen, hCmem⟩
            have hsrev : strip line = D.reverse ++ ')' :: C.reverse := by
              have h' := congrArg List.reverse hsCD
              rw [List.reverse_reverse] at h'
              rw [h']
              simp
            have hslen : (strip line).length = D.reverse.length + 1 + C.reverse.length := by
              rw [hsrev]
              simp
              omega
            have hCrevlen : C.reverse.length = j := by
              rw [List.length_reverse]
              exact hClen
            have hDlen : D.reverse.length = (strip line).length - 1 - j := by omega
            have htakeE : (strip line).take ((strip line).length - 1 - j) = D.reverse := by
              rw [hsrev]
              apply List.take_left'
              simp only [List.length_append, List.length_cons, List.length_reverse]
              omega
            have htakeA : (strip line).take i = A := by
              rw [hsAB]
              apply List.take_left'
              exact hAlen
            have htakeA1 : (strip line).take (i + 1) = A ++ ['('] := by
              rw [hsAB, List.take_append_eq_append_take]
              rw [List.take_of_length_le (by omega), hAlen]
              congr 1
              rw [show i + 1 - i = 1 by omega]
              rfl
            have hEtake : D.reverse.take (i + 1) = A ++ ['('] := by
              rw [← htakeE, List.take_take, min_eq_left hirn, htakeA1]
            have hEdec : D.reverse = A ++ '(' :: D.reverse.drop (i + 1) := by
              conv_lhs => rw [← List.take_append_drop (i + 1) D.reverse]
              rw [hEtake]
              simp
            have hdecomp : strip line =
                A ++ '(' :: (D.reverse.drop (i + 1) ++ ')' :: C.reverse) := by
              rw [hsrev]
              conv_lhs => rw [hEdec]
              simp
            refine ⟨A, D.reverse.drop (i + 1), C.reverse, hdecomp, ?_, hAmem, ?_, ?_, ?_⟩
            · intro hA
              rw [hA] at hAlen
              simp at hAlen
              omega
            · intro hm
              exact hCmem (List.mem_reverse.mp hm)
            · rw [← hn, htakeA]
            · rw [← ha, htakeE]

/-- A line whose stripped form has the call shape parses to the stripped
name and the stripped argument slice. -/
theorem parseCall_decomp_some (line pre mid post : List Char)
    (hdec : strip line = pre ++ '(' :: (mid ++ ')' :: post))
    (hpre : pre ≠ []) (hpmem : '(' ∉ pre) (hpost : ')' ∉ post) :
    parseCall line = some (strip pre, strip mid) := by
  have hl : ¬ line = [] := by
    intro h
    rw [h] at hdec
    have hnil : ([] : List Char) = pre ++ '(' :: (mid ++ ')' :: post) := hdec
    exact absurd hnil.symm (by simp)
  have hs : ¬ strip line = [] := by
    rw [hdec]
    simp
  simp only [parseCall, if_neg hl, if_neg hs]
  have hf : findChar '(' (strip line) = some pre.length := by
    rw [hdec]
    exact findChar_append '(' pre _ hpmem
  have hr : findChar ')' (strip line).reverse = some post.length := by
    have hrev : (strip line).reverse =
        post.reverse ++ ')' :: (mid.reverse ++ '(' :: pre.reverse) := by
      rw [hdec]
      simp
    rw [hrev]
    have hres := findChar_append ')' post.reverse (mid.reverse ++ '(' :: pre.reverse)
      (fun hm => hpost (List.mem_reverse.mp hm))
    rw [hres, List.length_reverse]
  rw [pyFind_eq_some _ _ _ hf, pyRFind_eq_some _ _ _ hr]
  have hslen : (strip line).length = pre.length + 1 + (mid.length + 1 + post.length) := by
    rw [hdec]
    simp
    omega
  have hpre0 : 0 < pre.length := List.length_pos.mpr hpre
  rw [if_neg (by rw [hslen]; push_cast; omega)]
  have ht1 : ((pre.length : Int)).toNat = pre.length := by omega
  have ht2 : (((strip line).length : Int) - 1 - (post.length : Int)).toNat =
      pre.length + 1 + mid.length := by
    rw [hslen]
    push_cast
    omega
  rw [ht1, ht2]
  have htake1 : (strip line).take pre.length = pre := by
    rw [hdec]
    apply List.take_left'
    rfl
  have htake2 : (strip line).take (pre.length + 1 + mid.length) = pre ++ '(' :: mid := by
    rw [hdec, show pre ++ '(' :: (mid ++ ')' :: post) =
      (pre ++ '(' :: mid) ++ ')' :: post by simp]
    apply List.take_left'
    simp
    omega
  have hdrop : (pre ++ '(' :: mid).drop (pre.length + 1) = mid := by
    rw [show pre ++ '(' :: mid = (pre ++ ['(']) ++ mid by simp]
    apply List.drop_left'
    simp
  rw [htake1, htake2, hdrop]

/-- C5 (amended): the parser succeeds exactly on lines whose stripped form
decomposes as a non-empty `(`-free name part, the first `(`, an argument
slice, the last `)` and a `)`-free ignored tail, returning the stripped name
and the **stripped** argument slice; it fails exactly when the line is empty
or whitespace-only, has no `(`, has `(` as its first non-whitespace
character, or has no `)` after the first `(`. -/
theorem parseCall_characterization (line n a : List Char) :
    (parseCall line = some (n, a) ↔
      ∃ pre mid post, strip line = pre ++ '(' :: (mid ++ ')' :: post) ∧
        pre ≠ [] ∧ '(' ∉ pre ∧ ')' ∉ post ∧ n = strip pre ∧ a = strip mid) ∧
    (parseCall line = none ↔
      (strip line = [] ∨ '(' ∉ strip line ∨ (strip line).head? = some '(' ∨
        ∀ u v, strip line = u ++ '(' :: v → '(' ∉ u → ')' ∉ v)) := by
  constructor
  · constructor
    · exact parseCall_some_decomp line n a
    · rintro ⟨pre, mid, post, hdec, hpre, hpmem, hpost, hn, ha⟩
      rw [hn, ha]
      exact parseCall_decomp_some line pre mid post hdec hpre hpmem hpost
  · constructor
    · intro h
      by_cases hl : line = []
      · left
        rw [hl]
        rfl
      by_cases hs : strip line = []
      · left
        exact hs
      simp only [parseCall, if_neg hl, if_neg hs] at h
      rcases hf : findChar '(' (strip line) with _ | i
      · right
        left
        exact (findChar_eq_none _ _).mp hf
      by_cases hi : i = 0
      · right
        right
        left
        rcases findChar_split _ _ _ hf with ⟨A, B, hsAB, hAlen, _⟩
        have hA : A = [] := List.length_eq_zero.mp (by rw [hAlen, hi])
        subst hA
        rw [hsAB]
        rfl
      · right
        right
        right
        rw [pyFind_eq_some _ _ _ hf] at h
        rcases hr : findChar ')' (strip line).reverse with _ | j
        · intro u v hdec hu
          intro hmem
          have hnp : ')' ∉ (strip line).reverse := (findChar_eq_none _ _).mp hr
          apply hnp
          rw [List.mem_reverse, hdec]
          simp [hmem]
        · rw [pyRFind_eq_some _ _ _ hr] at h
          have hguard : (i : Int) ≤ 0 ∨
              ((strip line).length : Int) - 1 - (j : Int) ≤ (i : Int) := by
            by_contra hg
            rw [if_neg hg] at h
            simp at h
          have hguard2 : ((strip line).length : Int) - 1 - (j : Int) ≤ (i : Int) := by
            rcases hguard with h1 | h2
            · exfalso
              have : 0 < i := Nat.pos_of_ne_zero hi
              omega
            · exact h2
          intro u v hdec hu
          intro hmem
          have hfu : findChar '(' (strip line) = some u.length := by
            rw [hdec]
            exact findChar_append _ _ _ hu
          have hui : u.length = i := by
            rw [hf] at hfu
            injection hfu with he
            exact he.symm
          have hvmem : ')' ∈ v.reverse := List.mem_reverse.mpr hmem
          rcases hjv : findChar ')' v.reverse with _ | j'
          · exact ((findChar_eq_none _ _).mp hjv) hvmem
          have hj'lt := findChar_lt_length _ _ _ hjv
          rw [List.length_reverse] at hj'lt
          have hsrev : (strip line).reverse = v.reverse ++ '(' :: u.reverse := by
            rw [hdec]
            simp
          have hwhole : findChar ')' (strip line).reverse = some j' := by
            rw [hsrev]
            exact findChar_prefix _ _ _ _ hjv
          have hjj : j = j' := Option.some.inj (hr.symm.trans hwhole)
          have hslen : (strip line).length = u.length + 1 + v.length := by
            rw [hdec]
            simp
            omega
          rw [hslen, hui, hjj] at hguard2
          push_cast at hguard2
          omega
    · intro hd
      rcases hsome : parseCall line with _ | p
      · rfl
      exfalso
      rcases parseCall_some_decomp line p.1 p.2 (by rw [hsome]) with
        ⟨pre, mid, post, hdec, hpre, hpmem, hpost, _, _⟩
      rcases hd with h1 | h2 | h3 | h4
      · rw [h1] at hdec
        exact absurd hdec.symm (by simp)
      · exact h2 (by rw [hdec]; simp)
      · rcases pre with _ | ⟨p0, pre'⟩
        · exact hpre rfl
        · rw [hdec] at h3
          simp at h3
          exact hpmem (by rw [h3]; exact List.mem_cons_self _ _)
      · exact (h4 pre (mid ++ ')' :: post) hdec hpmem) (by simp)

/-- Counterexample to C5 as stated: on `"f( a )"` the source parser returns
the argument slice stripped (`"a"`), not the raw text strictly between the
parentheses (`" a "`) that the claim describes (`parseCallClaimed`). -/
theorem parseCall_args_not_raw :
    parseCall ("f( a )".toList) = some ("f".toList, "a".toList) ∧
    parseCallClaimed ("f( a )".toList) = some ("f".toList, " a ".toList) ∧
    parseCall ("f( a )".toList) ≠ parseCallClaimed ("f( a )".toList) := by
  refine ⟨by decide, by decide, by decide⟩

theorem parseCall_characterization_witness :
    parseCall ("f(x)".toList) = some ("f".toList, "x".toList) :=
  (parseCall_characterization ("f(x)".toList) ("f".toList) ("x".toList)).1.mpr
    ⟨"f".toList, "x".toList, [], by decide, by decide, by decide, by decide,
      by decide, by decide⟩

end GrovePico
